import Mathlib

/-!
Verification of `inkpy_jinja/converter.py` against its specification.

The program is embedded shallowly:

* Python strings are `List Char` (`Str`); the string operations the code
  uses (`str.replace(old, new, 1)`, `str.split(sep)`, slicing) are defined
  below, faithful to CPython semantics.
* POSIX path functions used by the code (`os.path.split`, `os.path.normcase`,
  `posixpath.normpath`) and the arcname normalization performed by
  `zipfile.ZipFile.write` / `ZipInfo.from_file` are translated from CPython.
* The filesystem is a list of `(path, isDirectory)` entries; every pipeline
  step of `Converter._convert` is a function `FS → Except FS FS`, where
  `.error fs` models a raised exception with the filesystem left in state
  `fs` (no cleanup on failure, as in the source).
* External collaborators (the jinja2 engine, the conversion subprocess and
  the contents of the source archive) are inputs of the model (`ExtWorld`).
-/

/-- Python strings, modelled as lists of characters. -/
abbrev Str := List Char

/-- Python `s.replace(old, new, 1)`: replace the leftmost occurrence of
`old` in `s` by `new`; if `old` does not occur, return `s` unchanged.
(When `old` is empty, CPython inserts `new` at position 0.) -/
def replaceFirst (s old new : Str) : Str :=
  if old.isPrefixOf s then new ++ s.drop old.length
  else
    match s with
    | [] => []
    | c :: rest => c :: replaceFirst rest old new

/-- Python `s.split(sep)` for a single-character separator: keeps empty
pieces, never returns an empty list. -/
def pySplit (sep : Char) : Str → List Str
  | [] => [[]]
  | c :: rest =>
    match pySplit sep rest with
    | [] => [[]]
    | s :: ss => if c == sep then [] :: s :: ss else (c :: s) :: ss

/-- Python `s.split('/')[-1]` (the list is never empty). -/
def lastSeg (s : Str) : Str := (pySplit '/' s).getLastD []

/-- Python `s[:-3]`. -/
def pySliceNeg3 (s : Str) : Str := s.take (s.length - 3)

/-- `posixpath.normcase` is the identity on POSIX systems. -/
def normcase (s : Str) : Str := s

/-- Python `s.rstrip('/')`. -/
def rstripSlash (s : Str) : Str := (s.reverse.dropWhile (fun c => c == '/')).reverse

/-- Index just past the last `'/'` of the string, `0` if there is none
(Python `p.rfind('/') + 1`, clamped to `0` for "not found"). -/
def lastSlashIdxP1 : Str → Nat
  | [] => 0
  | c :: rest =>
    let r := lastSlashIdxP1 rest
    if 0 < r then r + 1 else if c == '/' then 1 else 0

/-- `posixpath.split`: split a path into `(head, tail)` at the final slash;
the head keeps no trailing slashes unless it consists only of slashes. -/
def ospathSplit (p : Str) : Str × Str :=
  let i := lastSlashIdxP1 p
  let head := p.take i
  let tail := p.drop i
  (if head ≠ [] ∧ head ≠ List.replicate head.length '/' then rstripSlash head else head,
   tail)

/-- Loop body of `posixpath.normpath`: process one path component. -/
def normFoldFn (initSlashes : Nat) (acc : List Str) (comp : Str) : List Str :=
  if comp = [] ∨ comp = ".".toList then acc
  else if comp ≠ "..".toList ∨ (initSlashes = 0 ∧ acc = []) ∨ acc.getLastD [] = "..".toList then
    acc ++ [comp]
  else acc.dropLast

/-- Component normalization pass of `posixpath.normpath`. -/
def normpathComps (initSlashes : Nat) (comps : List Str) : List Str :=
  comps.foldl (normFoldFn initSlashes) []

/-- Python `'/'.join` of a list of components. -/
def joinSegs : List Str → Str
  | [] => []
  | [s] => s
  | s :: ss => s ++ '/' :: joinSegs ss

/-- `posixpath.normpath`, translated from CPython. -/
def normpath (p : Str) : Str :=
  if p = [] then ".".toList
  else
    let initSlashes : Nat :=
      if ("/").toList.isPrefixOf p then
        if ("//").toList.isPrefixOf p ∧ ¬ ("///").toList.isPrefixOf p then 2 else 1
      else 0
    let res := List.replicate initSlashes '/' ++
      joinSegs (normpathComps initSlashes (pySplit '/' p))
    if res = [] then ".".toList else res

/-- Arcname normalization performed by CPython `zipfile.ZipInfo.from_file`
(used by `ZipFile.write`) on POSIX: `normpath`, then strip leading slashes
(there is no drive and no `altsep`). -/
def zipWriteArcname (arcname : Str) : Str :=
  (normpath arcname).dropWhile (fun c => c == '/')

/-- `trim_path`, the nested helper of `Converter.zip_dir`
(`converter.py` lines 155-162): remove the first occurrence of `parentDir`,
then (when `parentDir` is non-empty) the first occurrence of
`dirToZip + '/'`, then `os.path.normcase`. -/
def trim_path (parentDir dirToZip path : Str) : Str :=
  let archive_path := replaceFirst path parentDir []
  let archive_path :=
    if parentDir ≠ [] then replaceFirst archive_path (dirToZip ++ ['/']) []
    else archive_path
  normcase archive_path

/-- Name under which `zip_dir dir_path` stores the file at `file_path`:
`trim_path` (with `parentDir, dirToZip = os.path.split(dir_path)`) composed
with the arcname normalization of `ZipFile.write`. -/
def zipMemberName (dir_path file_path : Str) : Str :=
  zipWriteArcname (trim_path (ospathSplit dir_path).1 (ospathSplit dir_path).2 file_path)

/-- Python values that can appear in the `data` mapping (enough to express
truthiness of an `id` entry). -/
inductive PyVal
  | vNone
  | vStr (s : Str)
  | vInt (n : Int)
  | vBool (b : Bool)
deriving DecidableEq

/-- Python truthiness of a `PyVal` (`bool(v)`). -/
def PyVal.truthy : PyVal → Bool
  | .vNone => false
  | .vStr s => !s.isEmpty
  | .vInt n => n != 0
  | .vBool b => b

/-- Python `str(v)`, as used by `"{}".format(v)`. -/
def PyVal.fmt : PyVal → Str
  | .vNone => "None".toList
  | .vStr s => s
  | .vInt n => (toString n).toList
  | .vBool b => if b then "True".toList else "False".toList

/-- Python `d.get(k)` on a mapping, `None` when the key is absent. -/
def dictGet (d : List (Str × PyVal)) (k : Str) : PyVal :=
  match d.find? (fun kv => kv.1 == k) with
  | some kv => kv.2
  | none => .vNone

/-- Python `settings.get(k, dflt)` on the module-level `settings` dict. -/
def settingsGet (settings : List (Str × Str)) (k dflt : Str) : Str :=
  match settings.find? (fun kv => kv.1 == k) with
  | some kv => kv.2
  | none => dflt

/-- Python `getattr(settings, name, dflt)` where `settings` is the
module-level `dict` (`converter.py` line 10): dictionary entries are not
attributes of the dict object, so the lookup never finds `name` and the
default is always returned. -/
def getattrDict (settings : List (Str × Str)) (name dflt : Str) : Str := dflt

/-- `Converter.set_lang` (`converter.py` lines 66-69): a falsy `lang_code`
argument falls back to `getattr(settings, 'LANGUAGE_CODE', 'pl').split('-')[0]`. -/
def set_lang (settings : List (Str × Str)) (lang_code : Option Str) : Str :=
  match lang_code with
  | some l =>
    if l = [] then (pySplit '-' (getattrDict settings "LANGUAGE_CODE".toList "pl".toList)).headD []
    else l
  | none => (pySplit '-' (getattrDict settings "LANGUAGE_CODE".toList "pl".toList)).headD []

/-- Resolution rule as the specification words it: explicit override if
supplied, else the host configuration's `LANGUAGE_CODE` value truncated at
the first `'-'`, else the fallback `"pl"`. Stated for comparison with
`set_lang`, which is translated from the source. -/
def langResolveClaim (settings : List (Str × Str)) (lang_code : Option Str) : Str :=
  match lang_code with
  | some l =>
    if l = [] then (pySplit '-' (settingsGet settings "LANGUAGE_CODE".toList "pl".toList)).headD []
    else l
  | none => (pySplit '-' (settingsGet settings "LANGUAGE_CODE".toList "pl".toList)).headD []

/-- Errors `Converter.__init__` can raise. -/
inductive InitError
  | fileDoesNotExist
  | idDoesNotExist
deriving DecidableEq

/-- Filesystem model: a list of `(path, isDirectory)` entries; a path exists
when some entry carries it. -/
abbrev FS := List (Str × Bool)

/-- `os.path.exists`. -/
def pathExists (fs : FS) (p : Str) : Bool := fs.any (fun en => en.1 == p)

/-- `os.path.isdir`. -/
def isDirFS (fs : FS) (p : Str) : Bool := fs.any (fun en => en == (p, true))

/-- `os.path.isfile` (a non-directory entry at `p`). -/
def isFileFS (fs : FS) (p : Str) : Bool := fs.any (fun en => en == (p, false))

/-- The fields `Converter.__init__` stores on the instance. -/
structure Converter where
  source_file : Str
  output_path : Str
  data : List (Str × PyVal)
  tmp_dir_master : Str
  tmp_dir : Str
  tmp_odt : Str
  lang_code : Str
deriving DecidableEq

/-- `self.tmp_odt` as computed by `Converter.__init__` (lines 46, 52-55):
`tmp_dir_master + '/' + (source_file[:-3] + 'odt').split('/')[-1]`. -/
def tmpOdt (master source_file : Str) : Str :=
  master ++ '/' :: lastSeg (pySliceNeg3 source_file ++ "odt".toList)

/-- `Converter.__init__` (`converter.py` lines 39-64): check the source
path exists, check `data.get('id')` is truthy, then derive the temporary
paths and the language code. The constructor performs no filesystem write;
its only filesystem access is the `os.path.exists` read. -/
def converterInit (fs : FS) (settings : List (Str × Str))
    (source_file output_path : Str) (data : List (Str × PyVal))
    (lang_code : Option Str) : Except InitError Converter :=
  if !(pathExists fs source_file) then .error .fileDoesNotExist
  else if !(dictGet data "id".toList).truthy then .error .idDoesNotExist
  else
    let master := settingsGet settings "tmp_dir".toList "/tmp/INKPY".toList
    .ok {
      source_file := source_file
      output_path := output_path
      data := data
      tmp_dir_master := master
      tmp_dir := master ++ '/' :: (dictGet data "id".toList).fmt
      tmp_odt := tmpOdt master source_file
      lang_code := set_lang settings lang_code
    }

/-- `Converter.__init__` viewed as a filesystem transformer: the body
contains no write call (`os.makedirs` happens only later, in `unzip_odt`),
so the filesystem state is returned unchanged. -/
def converterInitFS (fs : FS) (settings : List (Str × Str))
    (source_file output_path : Str) (data : List (Str × PyVal))
    (lang_code : Option Str) : Except InitError Converter × FS :=
  (converterInit fs settings source_file output_path data lang_code, fs)

/-- External collaborators of the pipeline: the member files of the source
archive (paths relative to the archive root), whether the jinja2 rendering
of both XML members succeeds, and whether the external conversion
subprocess succeeds. -/
structure ExtWorld where
  members : List Str
  renderOk : Bool
  convOk : Bool

/-- `Converter.unzip_odt` (lines 92-96): create `tmp_dir` when absent
(`os.makedirs`), then extract every member of the source archive under it;
opening a missing source archive raises. -/
def unzip_odt (c : Converter) (e : ExtWorld) (fs : FS) : Except FS FS :=
  let fs1 := if pathExists fs c.tmp_dir then fs else fs ++ [(c.tmp_dir, true)]
  if pathExists fs1 c.source_file then
    .ok (fs1 ++ e.members.map (fun m => (c.tmp_dir ++ '/' :: m, false)))
  else .error fs1

/-- `Converter.render` (lines 101-111): open `tmp_dir/content.xml` and
`tmp_dir/styles.xml`, render them with jinja2 and write them back in place.
The set of paths is unchanged; the step raises when either file is missing
or the template engine fails. -/
def renderStep (c : Converter) (e : ExtWorld) (fs : FS) : Except FS FS :=
  if pathExists fs (c.tmp_dir ++ "/content.xml".toList)
      && pathExists fs (c.tmp_dir ++ "/styles.xml".toList)
      && e.renderOk then .ok fs
  else .error fs

/-- Errors `Converter.zip_dir` can raise on a bad `dir_path`. The source
raises `OSError("dir_path argument must point to a directory. ...")`
(lines 148-152); a single-argument `OSError(...)` call constructs the plain
`OSError` class, never the `NotADirectoryError` subclass (CPython maps an
`OSError` to a subclass only when constructed with an errno). -/
inductive ZipDirError
  | osError
  | notADirectoryError
deriving DecidableEq

/-- Filesystem effect of `Converter.zip_dir` (lines 119-178): default the
zip path to `dir_path + ".zip"` when falsy, raise when `dir_path` is not a
directory, otherwise write the archive file at the zip path. -/
def zip_dir (fs : FS) (dir_path : Str) (zip_file_path : Option Str) : Except ZipDirError FS :=
  let zfp := match zip_file_path with
    | none => dir_path ++ ".zip".toList
    | some z => if z = [] then dir_path ++ ".zip".toList else z
  if !(isDirFS fs dir_path) then .error .osError
  else .ok (fs ++ [(zfp, false)])

/-- CPython `zipfile.ZipFile(path, "w")` truncates: the freshly opened
archive has no entries, whatever archive existed at `path` before.
`zip_dir` always opens its output with mode `"w"` (lines 164-166). -/
def zipOpenModeW (preExisting : List Str) : List Str := []

/-- Member names of the archive produced by `zip_dir`: the names of the
pre-existing archive surviving the open (none, because of mode `"w"`),
followed by one entry per file of the walk, named by `trim_path` plus the
`ZipFile.write` arcname normalization. -/
def zipDirMembers (preExisting : List Str) (dir_path : Str) (walkFiles : List Str) : List Str :=
  zipOpenModeW preExisting ++ walkFiles.map (fun f => zipMemberName dir_path f)

/-- `Converter.zip_odt` (lines 98-99): `zip_dir(tmp_dir, tmp_odt)`; a
`zip_dir` exception propagates with the filesystem unchanged. -/
def zip_odt (c : Converter) (fs : FS) : Except FS FS :=
  match zip_dir fs c.tmp_dir (some c.tmp_odt) with
  | .ok fs2 => .ok fs2
  | .error _ => .error fs

/-- `Converter.to_pdf` (lines 180-182): run the external backend, which on
success writes the output file. -/
def to_pdf (c : Converter) (e : ExtWorld) (fs : FS) : Except FS FS :=
  if e.convOk then .ok (fs ++ [(c.output_path, false)]) else .error fs

/-- Entry `p` lies in the tree rooted at `d` (is `d` or is below it). -/
def underDir (d p : Str) : Bool := p == d || (d ++ ['/']).isPrefixOf p

/-- `Converter.remove_tmp` (lines 87-90): `shutil.rmtree(tmp_dir)` (raises
unless `tmp_dir` is a directory, then deletes the whole tree), followed by
`os.remove(tmp_odt)` (raises when `tmp_odt` is not an existing file). -/
def remove_tmp (c : Converter) (fs : FS) : Except FS FS :=
  if isDirFS fs c.tmp_dir then
    let fs1 := fs.filter (fun en => !(underDir c.tmp_dir en.1))
    if isFileFS fs1 c.tmp_odt then .ok (fs1.filter (fun en => !(en.1 == c.tmp_odt)))
    else .error fs1
  else .error fs

/-- The first three steps of `Converter._convert`:
`unzip_odt; render; zip_odt`. -/
def pipeline3 (c : Converter) (e : ExtWorld) (fs : FS) : Except FS FS :=
  (unzip_odt c e fs).bind (fun f1 => (renderStep c e f1).bind (fun f2 => zip_odt c f2))

/-- The first four steps of `Converter._convert`: `pipeline3` then `to_pdf`. -/
def pipeline4 (c : Converter) (e : ExtWorld) (fs : FS) : Except FS FS :=
  (pipeline3 c e fs).bind (fun f3 => to_pdf c e f3)

/-- `Converter._convert` (lines 74-85): the five sequential steps, each run
only when the previous one succeeded; an exception propagates immediately. -/
def convertRun (c : Converter) (e : ExtWorld) (fs : FS) : Except FS FS :=
  (pipeline4 c e fs).bind (fun f4 => remove_tmp c f4)

/-! ### Generic lemmas about the string operations -/

theorem take_append_len (a b : Str) : (a ++ b).take a.length = a := by
  induction a with
  | nil => rfl
  | cons c t ih => simp [ih]

theorem drop_append_len (a b : Str) : (a ++ b).drop a.length = b := by
  induction a with
  | nil => rfl
  | cons c t ih => simp [ih]

theorem take_append_len_add (a b : Str) (n : Nat) : (a ++ b).take (a.length + n) = a ++ b.take n := by
  induction a with
  | nil => simp
  | cons c t ih =>
    have h : (c :: t).length + n = (t.length + n) + 1 := by simp; omega
    rw [List.cons_append, h, List.take_succ_cons, ih, List.cons_append]

theorem isPrefixOf_append_self (a b : Str) : a.isPrefixOf (a ++ b) = true := by
  induction a with
  | nil => simp [List.isPrefixOf]
  | cons c t ih => simp [List.isPrefixOf, ih]

theorem replaceFirst_left (old rest new : Str) : replaceFirst (old ++ rest) old new = new ++ rest := by
  unfold replaceFirst
  rw [if_pos (isPrefixOf_append_self old rest), drop_append_len]

theorem replaceFirst_cons_neg {c : Char} {s old : Str}
    (h : old.isPrefixOf (c :: s) = false) (new : Str) :
    replaceFirst (c :: s) old new = c :: replaceFirst s old new := by
  rw [replaceFirst, if_neg (by simp [h])]

theorem pySplit_ne_nil (sep : Char) (s : Str) : pySplit sep s ≠ [] := by
  cases s with
  | nil => simp [pySplit]
  | cons c rest =>
    cases hr : pySplit sep rest with
    | nil => simp [pySplit, hr]
    | cons a as =>
      simp only [pySplit, hr]
      split <;> simp

theorem pySplit_no_sep (sep : Char) (s : Str) (h : sep ∉ s) : pySplit sep s = [s] := by
  induction s with
  | nil => rfl
  | cons c rest ih =>
    have hc : (c == sep) = false := beq_eq_false_iff_ne.mpr (fun e => h (by simp [e]))
    have hr := ih (fun hm => h (by simp [hm]))
    simp [pySplit, hr, hc]

theorem pySplit_append_sep (sep : Char) (a y : Str) :
    pySplit sep (a ++ sep :: y) = pySplit sep a ++ pySplit sep y := by
  induction a with
  | nil =>
    obtain ⟨s, ss, hss⟩ := List.exists_cons_of_ne_nil (pySplit_ne_nil sep y)
    simp [pySplit, hss]
  | cons c t ih =>
    obtain ⟨s, ss, hss⟩ := List.exists_cons_of_ne_nil (pySplit_ne_nil sep t)
    rw [List.cons_append]
    by_cases hc : (c == sep) = true
    · simp [pySplit, ih, hss, hc]
    · simp [pySplit, ih, hss, hc]

theorem getLastD_append_single (l : List Str) (a : Str) : ∀ dflt, (l ++ [a]).getLastD dflt = a := by
  induction l with
  | nil => intro d; rfl
  | cons c t ih => intro d; rw [List.cons_append, List.getLastD_cons]; exact ih c

theorem lastSeg_append_sep (d y : Str) (hy : '/' ∉ y) : lastSeg (d ++ '/' :: y) = y := by
  unfold lastSeg
  rw [pySplit_append_sep, pySplit_no_sep '/' y hy, getLastD_append_single]

theorem lastSlashIdxP1_zero {s : Str} (h : '/' ∉ s) : lastSlashIdxP1 s = 0 := by
  induction s with
  | nil => rfl
  | cons c t ih =>
    have hc : (c == '/') = false := beq_eq_false_iff_ne.mpr (fun e => h (by simp [e]))
    simp [lastSlashIdxP1, ih (fun hm => h (by simp [hm])), hc]

theorem lastSlashIdxP1_append_zero (a : Str) {b : Str} (h : lastSlashIdxP1 b = 0) :
    lastSlashIdxP1 (a ++ b) = lastSlashIdxP1 a := by
  induction a with
  | nil => simp [h, lastSlashIdxP1]
  | cons c t ih => simp [lastSlashIdxP1, ih]

/-! ### `os.path.split` of the working directory -/

theorem ospathSplit_master (idv : Str) (h : '/' ∉ idv) :
    ospathSplit ("/tmp/INKPY/".toList ++ idv) = ("/tmp/INKPY".toList, idv) := by
  have h1 : lastSlashIdxP1 ("/tmp/INKPY/".toList ++ idv) = 11 := by
    rw [lastSlashIdxP1_append_zero _ (lastSlashIdxP1_zero h)]; decide
  have hL : ("/tmp/INKPY/".toList : Str).length = 11 := by decide
  have htake : ("/tmp/INKPY/".toList ++ idv).take 11 = "/tmp/INKPY/".toList := by
    rw [← hL, take_append_len]
  have hdrop : ("/tmp/INKPY/".toList ++ idv).drop 11 = idv := by
    rw [← hL, drop_append_len]
  simp only [ospathSplit]
  rw [h1, htake, hdrop]
  have hcond : ("/tmp/INKPY/".toList : Str) ≠ [] ∧
      ("/tmp/INKPY/".toList : Str) ≠ List.replicate ("/tmp/INKPY/".toList : Str).length '/' := by
    decide
  rw [if_pos hcond]
  have : rstripSlash "/tmp/INKPY/".toList = "/tmp/INKPY".toList := by decide
  rw [this]

/-! ### `trim_path` on files below the working directory -/

theorem trim_path_working_dir (idv rel : Str) (h1 : idv ≠ []) (h2 : '/' ∉ idv) :
    trim_path "/tmp/INKPY".toList idv
      ("/tmp/INKPY".toList ++ '/' :: (idv ++ '/' :: rel)) = '/' :: rel := by
  obtain ⟨c, t, rfl⟩ := List.exists_cons_of_ne_nil h1
  have hc : (c == '/') = false := beq_eq_false_iff_ne.mpr (fun e => h2 (by simp [e]))
  simp only [trim_path]
  rw [replaceFirst_left]
  rw [if_pos (by decide : ("/tmp/INKPY".toList : Str) ≠ [])]
  have hnp : (((c :: t) ++ ['/']).isPrefixOf ('/' :: ((c :: t) ++ '/' :: rel))) = false := by
    simp [List.cons_append, List.isPrefixOf, hc]
  rw [List.nil_append, replaceFirst_cons_neg hnp]
  have hre : (c :: t) ++ '/' :: rel = ((c :: t) ++ ['/']) ++ rel := by simp
  rw [hre, replaceFirst_left, List.nil_append]
  rfl

/-! ### `normpath` and the `ZipFile.write` arcname normalization on rooted
relative paths -/

theorem joinSegs_cons_cons (s s2 : Str) (ss : List Str) :
    joinSegs (s :: s2 :: ss) = s ++ '/' :: joinSegs (s2 :: ss) := rfl

theorem pySplit_joinSegs (comps : List Str) (hne : comps ≠ [])
    (h : ∀ c ∈ comps, '/' ∉ c) :
    pySplit '/' (joinSegs comps) = comps := by
  induction comps with
  | nil => exact absurd rfl hne
  | cons c cs ih =>
    cases cs with
    | nil => exact pySplit_no_sep '/' c (h c (by simp))
    | cons c2 cs2 =>
      rw [joinSegs_cons_cons, pySplit_append_sep, pySplit_no_sep '/' c (h c (by simp)),
        ih (by simp) (fun x hx => h x (by simp [hx]))]
      rfl

theorem joinSegs_head_shape (ch : Char) (c0t : Str) (cs : List Str) :
    ∃ tl, joinSegs ((ch :: c0t) :: cs) = ch :: tl := by
  cases cs with
  | nil => exact ⟨c0t, rfl⟩
  | cons c2 cs2 => exact ⟨c0t ++ '/' :: joinSegs (c2 :: cs2), rfl⟩

theorem normFoldFn_plain (ini : Nat) (acc : List Str) (c : Str)
    (hc1 : c ≠ []) (hc2 : c ≠ ".".toList) (hc3 : c ≠ "..".toList) :
    normFoldFn ini acc c = acc ++ [c] := by
  unfold normFoldFn
  rw [if_neg (fun hor => Or.elim hor hc1 hc2), if_pos (Or.inl hc3)]

theorem foldl_normFoldFn_plain (ini : Nat) (comps : List Str) :
    ∀ acc, (∀ c ∈ comps, c ≠ [] ∧ c ≠ ".".toList ∧ c ≠ "..".toList) →
      List.foldl (normFoldFn ini) acc comps = acc ++ comps := by
  induction comps with
  | nil => intro acc _; simp
  | cons c cs ih =>
    intro acc h
    have hc := h c (by simp)
    rw [List.foldl_cons, normFoldFn_plain ini acc c hc.1 hc.2.1 hc.2.2,
      ih (acc ++ [c]) (fun x hx => h x (by simp [hx]))]
    simp

theorem normpath_rooted (comps : List Str) (hne : comps ≠ [])
    (h : ∀ c ∈ comps, c ≠ [] ∧ '/' ∉ c ∧ c ≠ ".".toList ∧ c ≠ "..".toList) :
    normpath ('/' :: joinSegs comps) = '/' :: joinSegs comps := by
  obtain ⟨c0, cs, rfl⟩ := List.exists_cons_of_ne_nil hne
  obtain ⟨ch, c0t, hc0⟩ := List.exists_cons_of_ne_nil (h c0 (by simp)).1
  subst hc0
  have hch : ('/' == ch) = false :=
    beq_eq_false_iff_ne.mpr (fun e => (h (ch :: c0t) (by simp)).2.1 (by simp [← e]))
  obtain ⟨tl, htl⟩ := joinSegs_head_shape ch c0t cs
  have hp2 : (("//").toList.isPrefixOf ('/' :: joinSegs ((ch :: c0t) :: cs))) = false := by
    rw [htl]; simp [List.isPrefixOf, hch]
  have hps : pySplit '/' ('/' :: joinSegs ((ch :: c0t) :: cs)) = [] :: (ch :: c0t) :: cs := by
    have hj : pySplit '/' (joinSegs ((ch :: c0t) :: cs)) = (ch :: c0t) :: cs :=
      pySplit_joinSegs ((ch :: c0t) :: cs) (by simp) (fun x hx => (h x hx).2.1)
    simp [pySplit, hj]
  have hfold : normpathComps 1 ([] :: (ch :: c0t) :: cs) = (ch :: c0t) :: cs := by
    unfold normpathComps
    rw [List.foldl_cons]
    have h00 : normFoldFn 1 [] [] = [] := by
      unfold normFoldFn; rw [if_pos (Or.inl rfl)]
    rw [h00, foldl_normFoldFn_plain 1 _ []
      (fun x hx => ⟨(h x hx).1, (h x hx).2.2.1, (h x hx).2.2.2⟩)]
    rfl
  have hp1 : (("/").toList.isPrefixOf ('/' :: joinSegs ((ch :: c0t) :: cs))) = true := by
    simp [List.isPrefixOf]
  have hnp : ¬ (['/'] <+: joinSegs ((ch :: c0t) :: cs)) := by
    rw [htl]
    intro hp
    have he := (List.cons_prefix_cons.mp hp).1
    rw [he] at hch
    simp at hch
  simp only [normpath]
  simp [hp1, hp2, hps, hfold, hnp]

theorem zipWriteArcname_rooted (comps : List Str) (hne : comps ≠ [])
    (h : ∀ c ∈ comps, c ≠ [] ∧ '/' ∉ c ∧ c ≠ ".".toList ∧ c ≠ "..".toList) :
    zipWriteArcname ('/' :: joinSegs comps) = joinSegs comps := by
  unfold zipWriteArcname
  rw [normpath_rooted comps hne h]
  obtain ⟨c0, cs, rfl⟩ := List.exists_cons_of_ne_nil hne
  obtain ⟨ch, c0t, hc0⟩ := List.exists_cons_of_ne_nil (h c0 (by simp)).1
  subst hc0
  have hch : (ch == '/') = false :=
    beq_eq_false_iff_ne.mpr (fun e => (h (ch :: c0t) (by simp)).2.1 (by simp [e]))
  obtain ⟨tl, htl⟩ := joinSegs_head_shape ch c0t cs
  rw [htl]
  simp [List.dropWhile, hch]

/-! ### Claim C1 -/

/-- Claim C1: for every file below the working directory `/tmp/INKPY/<id>`
(relative path given by its non-empty list of plain components), `zip_dir`
computes the archive member name by the `trim_path` steps followed by the
`ZipFile.write` arcname normalization, and the resulting member name is
exactly the path relative to the working directory: `content.xml` and
`styles.xml` land at the archive root, and no member name keeps a leading
separator or temp-directory components. -/
theorem zip_dir_member_names (idv : Str) (comps : List Str)
    (h1 : idv ≠ []) (h2 : '/' ∉ idv) (hne : comps ≠ [])
    (h : ∀ c ∈ comps, c ≠ [] ∧ '/' ∉ c ∧ c ≠ ".".toList ∧ c ≠ "..".toList) :
    zipMemberName ("/tmp/INKPY/".toList ++ idv)
        (("/tmp/INKPY/".toList ++ idv) ++ '/' :: joinSegs comps) = joinSegs comps
    ∧ ("/".toList).isPrefixOf (joinSegs comps) = false := by
  have hpre : ("/".toList).isPrefixOf (joinSegs comps) = false := by
    obtain ⟨c0, cs, rfl⟩ := List.exists_cons_of_ne_nil hne
    obtain ⟨ch, c0t, hc0⟩ := List.exists_cons_of_ne_nil (h c0 (by simp)).1
    subst hc0
    have hch : ('/' == ch) = false :=
      beq_eq_false_iff_ne.mpr (fun e => (h (ch :: c0t) (by simp)).2.1 (by simp [← e]))
    obtain ⟨tl, htl⟩ := joinSegs_head_shape ch c0t cs
    rw [htl]
    simp [List.isPrefixOf, hch]
  refine ⟨?_, hpre⟩
  unfold zipMemberName
  rw [ospathSplit_master idv h2]
  have hpath : ("/tmp/INKPY/".toList ++ idv) ++ '/' :: joinSegs comps
      = "/tmp/INKPY".toList ++ '/' :: (idv ++ '/' :: joinSegs comps) := by
    have hsplit : ("/tmp/INKPY/".toList : Str) = "/tmp/INKPY".toList ++ ['/'] := by decide
    rw [hsplit]
    simp
  rw [hpath, trim_path_working_dir idv (joinSegs comps) h1 h2,
    zipWriteArcname_rooted comps hne h]

/-- Concrete instance of the member-name theorem: the file
`/tmp/INKPY/42/content.xml` of the working directory `/tmp/INKPY/42` is
stored as the root member `content.xml`. -/
theorem zip_dir_member_names_witness :
    zipMemberName ("/tmp/INKPY/".toList ++ "42".toList)
        (("/tmp/INKPY/".toList ++ "42".toList) ++ '/' :: joinSegs ["content.xml".toList])
        = joinSegs ["content.xml".toList]
    ∧ ("/".toList).isPrefixOf (joinSegs ["content.xml".toList]) = false :=
  zip_dir_member_names "42".toList ["content.xml".toList] (by decide) (by decide)
    (by decide) (by decide)

/-! ### Claims C2, C7, C8 -/

/-- Claim C2 is false of the code: `zip_dir` opens its output archive with
mode `"w"`, which truncates a pre-existing archive, although the claim (and
the function's own docstring) promises in-place update. A pre-existing
member `extra.txt` that does not correspond to a file under `dir_path` is
gone after the call. -/
theorem zip_dir_truncates_existing :
    "extra.txt".toList ∈ ["extra.txt".toList]
    ∧ zipDirMembers ["extra.txt".toList] "/tmp/INKPY/42".toList
        ["/tmp/INKPY/42/content.xml".toList] = ["content.xml".toList]
    ∧ "extra.txt".toList ∉ zipDirMembers ["extra.txt".toList] "/tmp/INKPY/42".toList
        ["/tmp/INKPY/42/content.xml".toList] := by
  refine ⟨by decide, by decide, by decide⟩

/-- Claim C7 counterexample: on a `dir_path` that is not a directory,
`zip_dir` raises the plain `OSError` built by its single-argument
`raise OSError(...)`, which is not the `NotADirectoryError` subclass the
claim names. -/
theorem zip_dir_not_dir_plain_oserror :
    zip_dir [] "/tmp/INKPY/42".toList (some "/tmp/INKPY/report.odt".toList) = .error .osError
    ∧ zip_dir [] "/tmp/INKPY/42".toList (some "/tmp/INKPY/report.odt".toList)
        ≠ .error .notADirectoryError := by
  have h1 : zip_dir [] "/tmp/INKPY/42".toList (some "/tmp/INKPY/report.odt".toList)
      = .error .osError := rfl
  refine ⟨h1, ?_⟩
  rw [h1]
  intro hcontra
  exact ZipDirError.noConfusion (Except.error.inj hcontra)

/-- Claim C7 (amended): for every `dir_path` that is not a directory,
`zip_dir` fails, raising the plain `OSError` (not the `NotADirectoryError`
subclass). -/
theorem zip_dir_not_dir_fails (fs : FS) (dir_path : Str) (zip_file_path : Option Str)
    (h : isDirFS fs dir_path = false) :
    zip_dir fs dir_path zip_file_path = .error .osError := by
  simp [zip_dir, h]

/-- Concrete instance of the amended C7 statement: repacking with
`dir_path = /tmp/INKPY/42` on an empty filesystem raises the plain
`OSError`. -/
theorem zip_dir_not_dir_fails_witness :
    zip_dir [] "/tmp/INKPY/42".toList (some "/tmp/INKPY/42.odt".toList) = .error .osError :=
  zip_dir_not_dir_fails [] "/tmp/INKPY/42".toList (some "/tmp/INKPY/42.odt".toList) (by decide)

/-- Claim C8 is false of the code: `set_lang` reads `LANGUAGE_CODE` with
`getattr` on the module-level `settings` dict, so a configured
`LANGUAGE_CODE` of `en-us` is ignored and the hardcoded fallback `pl` is
used, while the claimed resolution (`langResolveClaim`, a dictionary
lookup) would produce `en`. -/
theorem set_lang_ignores_settings :
    set_lang [("LANGUAGE_CODE".toList, "en-us".toList)] none = "pl".toList
    ∧ langResolveClaim [("LANGUAGE_CODE".toList, "en-us".toList)] none = "en".toList
    ∧ set_lang [("LANGUAGE_CODE".toList, "en-us".toList)] none
        ≠ langResolveClaim [("LANGUAGE_CODE".toList, "en-us".toList)] none := by
  refine ⟨by decide, by decide, by decide⟩

/-! ### Claims C5, C6, C10 (constructor behaviour) -/

/-- Claim C5 counterexample: a `data` mapping lacking `id` combined with a
missing source file makes `Converter.__init__` raise `FileDoesNotExist`,
not `IdDoesNotExist` — the source-existence check (itself a filesystem
read) precedes the id check. -/
theorem init_missing_source_and_no_id :
    converterInit [] [] "/docs/report.odt".toList "/out/report.pdf".toList [] none
      = .error .fileDoesNotExist
    ∧ converterInit [] [] "/docs/report.odt".toList "/out/report.pdf".toList [] none
      ≠ .error .idDoesNotExist := by
  have h1 : converterInit [] [] "/docs/report.odt".toList "/out/report.pdf".toList [] none
      = .error .fileDoesNotExist := rfl
  refine ⟨h1, ?_⟩
  rw [h1]
  intro hcontra
  exact InitError.noConfusion (Except.error.inj hcontra)

/-- Claim C5 (amended): when the source path exists, a `data` mapping whose
`id` lookup is falsy (in particular: key absent) makes `Converter.__init__`
fail with `IdDoesNotExist`; the constructor leaves the filesystem unchanged,
so no temporary directory is created (its only filesystem access is the
read-only existence check that precedes the id check). -/
theorem init_no_id_fails (fs : FS) (settings : List (Str × Str))
    (source_file output_path : Str) (data : List (Str × PyVal)) (lang_code : Option Str)
    (hsrc : pathExists fs source_file = true)
    (hid : (dictGet data "id".toList).truthy = false) :
    converterInit fs settings source_file output_path data lang_code = .error .idDoesNotExist
    ∧ (converterInitFS fs settings source_file output_path data lang_code).2 = fs := by
  have hid2 : (dictGet data ['i', 'd']).truthy = false := hid
  exact ⟨by simp [converterInit, hsrc, hid2], rfl⟩

/-- Concrete instance of the amended C5 statement: source present, `data`
empty. -/
theorem init_no_id_fails_witness :
    converterInit [("/docs/report.odt".toList, false)] [] "/docs/report.odt".toList
        "/out/report.pdf".toList [] none = .error .idDoesNotExist
    ∧ (converterInitFS [("/docs/report.odt".toList, false)] [] "/docs/report.odt".toList
        "/out/report.pdf".toList [] none).2 = [("/docs/report.odt".toList, false)] :=
  init_no_id_fails [("/docs/report.odt".toList, false)] [] "/docs/report.odt".toList
    "/out/report.pdf".toList [] none (by decide) (by decide)

/-- Claim C6: for every source path that does not exist, `Converter.__init__`
fails with `FileDoesNotExist` and the filesystem is untouched — in
particular extraction (`unzip_odt`) is never invoked, since no `Converter`
instance is produced. -/
theorem init_missing_source_fails (fs : FS) (settings : List (Str × Str))
    (source_file output_path : Str) (data : List (Str × PyVal)) (lang_code : Option Str)
    (hsrc : pathExists fs source_file = false) :
    converterInit fs settings source_file output_path data lang_code = .error .fileDoesNotExist
    ∧ (converterInitFS fs settings source_file output_path data lang_code).2 = fs := by
  exact ⟨by simp [converterInit, hsrc], rfl⟩

/-- Concrete instance of the C6 statement. -/
theorem init_missing_source_fails_witness :
    converterInit [] [] "/docs/report.odt".toList "/out/report.pdf".toList
        [("id".toList, .vStr "42".toList)] none = .error .fileDoesNotExist
    ∧ (converterInitFS [] [] "/docs/report.odt".toList "/out/report.pdf".toList
        [("id".toList, .vStr "42".toList)] none).2 = [] :=
  init_missing_source_fails [] [] "/docs/report.odt".toList "/out/report.pdf".toList
    [("id".toList, .vStr "42".toList)] none (by decide)

/-- Claim C10: `Converter.__init__` raises `IdDoesNotExist` not only for an
absent `id` key but for every falsy `id` value — the empty string, the
integer `0`, `False` and `None` are all falsy, and any `data` mapping whose
`id` entry holds a falsy value fails with `IdDoesNotExist` (source path
present, so the id check is reached). -/
theorem init_falsy_id_values (fs : FS) (settings : List (Str × Str))
    (source_file output_path : Str) (lang_code : Option Str)
    (hsrc : pathExists fs source_file = true) :
    PyVal.truthy (.vStr []) = false
    ∧ PyVal.truthy (.vInt 0) = false
    ∧ PyVal.truthy (.vBool false) = false
    ∧ PyVal.truthy .vNone = false
    ∧ ∀ v : PyVal, v.truthy = false →
        converterInit fs settings source_file output_path [("id".toList, v)] lang_code
          = .error .idDoesNotExist := by
  refine ⟨rfl, by decide, rfl, rfl, ?_⟩
  intro v hv
  have hd : dictGet [(['i', 'd'], v)] ['i', 'd'] = v := by
    simp [dictGet, List.find?]
  simp [converterInit, hsrc, hd, hv]

/-- Concrete instance of the C10 statement at the falsy value `0`. -/
theorem init_falsy_id_values_witness :
    converterInit [("/docs/report.odt".toList, false)] [] "/docs/report.odt".toList
        "/out/report.pdf".toList [("id".toList, .vInt 0)] none = .error .idDoesNotExist :=
  (init_falsy_id_values [("/docs/report.odt".toList, false)] [] "/docs/report.odt".toList
    "/out/report.pdf".toList none (by decide)).2.2.2.2 (.vInt 0) (by decide)

/-! ### Claim C9 -/

/-- Claim C9: for a source path `d/stem.ext` (plain stem, and extension
holding neither a dot nor a slash), `tmp_odt` is the temp root joined with
the final segment of the source path with its last three characters removed
and `odt` appended; that file name equals `stem.odt` exactly when the
extension is three characters long (so `report.docx` yields `report.dodt`). -/
theorem tmp_odt_name (master d stem ext : Str)
    (hstem : '/' ∉ stem) (hext1 : '/' ∉ ext) (hext2 : '.' ∉ ext)
    (hlen : 3 ≤ stem.length + 1 + ext.length) :
    tmpOdt master (d ++ '/' :: (stem ++ '.' :: ext))
      = master ++ '/' :: (pySliceNeg3 (stem ++ '.' :: ext) ++ "odt".toList)
    ∧ (pySliceNeg3 (stem ++ '.' :: ext) ++ "odt".toList = stem ++ ".odt".toList
        ↔ ext.length = 3) := by
  have hXlen : (stem ++ '.' :: ext).length = stem.length + 1 + ext.length := by
    simp
    omega
  have hnoslash : '/' ∉ pySliceNeg3 (stem ++ '.' :: ext) ++ "odt".toList := by
    intro hm
    rcases List.mem_append.mp hm with hm1 | hm1
    · have hm2 := List.take_subset _ _ hm1
      rcases List.mem_append.mp hm2 with h3 | h3
      · exact hstem h3
      · rcases List.mem_cons.mp h3 with h4 | h4
        · exact absurd h4 (by decide)
        · exact hext1 h4
    · revert hm1
      decide
  have hslice : pySliceNeg3 ((d ++ ['/']) ++ (stem ++ '.' :: ext))
      = (d ++ ['/']) ++ pySliceNeg3 (stem ++ '.' :: ext) := by
    unfold pySliceNeg3
    have hl2 : ((d ++ ['/']) ++ (stem ++ '.' :: ext)).length - 3
        = (d ++ ['/']).length + ((stem ++ '.' :: ext).length - 3) := by
      simp [List.length_append]
      omega
    rw [hl2, take_append_len_add]
  have hre : d ++ '/' :: (stem ++ '.' :: ext) = (d ++ ['/']) ++ (stem ++ '.' :: ext) := by
    simp
  constructor
  · unfold tmpOdt
    rw [hre, hslice]
    have hy : ((d ++ ['/']) ++ pySliceNeg3 (stem ++ '.' :: ext)) ++ "odt".toList
        = d ++ '/' :: (pySliceNeg3 (stem ++ '.' :: ext) ++ "odt".toList) := by
      simp
    rw [hy, lastSeg_append_sep d _ hnoslash]
  · constructor
    · intro heq
      have hlenEq := congrArg List.length heq
      have hodt : ("odt".toList : Str).length = 3 := rfl
      have hdodt : (".odt".toList : Str).length = 4 := rfl
      rw [List.length_append, List.length_append, hodt, hdodt] at hlenEq
      unfold pySliceNeg3 at hlenEq
      rw [List.length_take] at hlenEq
      have hmin : min ((stem ++ '.' :: ext).length - 3) (stem ++ '.' :: ext).length
          = (stem ++ '.' :: ext).length - 3 := Nat.min_eq_left (Nat.sub_le _ _)
      rw [hmin, hXlen] at hlenEq
      omega
    · intro h3
      unfold pySliceNeg3
      have hn : (stem ++ '.' :: ext).length - 3 = stem.length + 1 := by
        rw [hXlen]
        omega
      rw [hn, take_append_len_add stem ('.' :: ext) 1]
      have ht1 : ('.' :: ext).take 1 = ['.'] := by simp
      rw [ht1]
      simp

/-- Concrete instance of the C9 statement: source `/docs/report.docx`
(four-character extension) yields the intermediate file name
`report.dodt`, which is not `report.odt`. -/
theorem tmp_odt_name_witness :
    tmpOdt "/tmp/INKPY".toList ("/docs".toList ++ '/' :: ("report".toList ++ '.' :: "docx".toList))
      = "/tmp/INKPY".toList ++ '/' :: (pySliceNeg3 ("report".toList ++ '.' :: "docx".toList) ++ "odt".toList)
    ∧ (pySliceNeg3 ("report".toList ++ '.' :: "docx".toList) ++ "odt".toList
        = "report".toList ++ ".odt".toList ↔ ("docx".toList : Str).length = 3) :=
  tmp_odt_name "/tmp/INKPY".toList "/docs".toList "report".toList "docx".toList
    (by decide) (by decide) (by decide) (by decide)

/-! ### Facts about the pipeline steps -/

/-- Every entry of `fs` is an entry of `fs2`. -/
def FSub (fs fs2 : FS) : Prop := ∀ en, en ∈ fs → en ∈ fs2

theorem fsub_append (fs l : FS) : FSub fs (fs ++ l) :=
  fun en h => List.mem_append_left _ h

theorem fsub_trans {a b c : FS} (h1 : FSub a b) (h2 : FSub b c) : FSub a c :=
  fun en h => h2 en (h1 en h)

theorem pathExists_mono {fs fs2 : FS} {p : Str} (hs : FSub fs fs2)
    (h : pathExists fs p = true) : pathExists fs2 p = true := by
  simp only [pathExists, List.any_eq_true] at h ⊢
  obtain ⟨en, hen, he⟩ := h
  exact ⟨en, hs en hen, he⟩

theorem pathExists_append_right (fs : FS) (p : Str) (b : Bool) (l : FS) :
    pathExists (fs ++ (p, b) :: l) p = true := by
  simp [pathExists, List.any_eq_true]

theorem unzip_ok_facts {c : Converter} {e : ExtWorld} {fs f : FS}
    (h : unzip_odt c e fs = .ok f) :
    FSub fs f ∧ pathExists f c.tmp_dir = true := by
  unfold unzip_odt at h
  by_cases hex : pathExists fs c.tmp_dir = true
  · rw [if_pos hex] at h
    by_cases hsrc : pathExists fs c.source_file = true
    · rw [if_pos hsrc] at h
      injection h with h
      subst h
      exact ⟨fsub_append _ _, pathExists_mono (fsub_append _ _) hex⟩
    · rw [if_neg hsrc] at h
      exact absurd h (by simp)
  · rw [if_neg hex] at h
    by_cases hsrc : pathExists (fs ++ [(c.tmp_dir, true)]) c.source_file = true
    · rw [if_pos hsrc] at h
      injection h with h
      subst h
      refine ⟨fsub_trans (fsub_append _ _) (fsub_append _ _), ?_⟩
      exact pathExists_mono (fsub_append _ _) (pathExists_append_right fs c.tmp_dir true [])
    · rw [if_neg hsrc] at h
      exact absurd h (by simp)

theorem unzip_error_facts {c : Converter} {e : ExtWorld} {fs f : FS}
    (h : unzip_odt c e fs = .error f) :
    FSub fs f ∧ pathExists f c.source_file = false := by
  unfold unzip_odt at h
  by_cases hex : pathExists fs c.tmp_dir = true
  · rw [if_pos hex] at h
    by_cases hsrc : pathExists fs c.source_file = true
    · rw [if_pos hsrc] at h
      exact absurd h (by simp)
    · rw [if_neg hsrc] at h
      injection h with h
      subst h
      exact ⟨fun en hen => hen, by simpa using hsrc⟩
  · rw [if_neg hex] at h
    by_cases hsrc : pathExists (fs ++ [(c.tmp_dir, true)]) c.source_file = true
    · rw [if_pos hsrc] at h
      exact absurd h (by simp)
    · rw [if_neg hsrc] at h
      injection h with h
      subst h
      exact ⟨fsub_append _ _, by simpa using hsrc⟩

theorem render_ok_eq {c : Converter} {e : ExtWorld} {fs f : FS}
    (h : renderStep c e fs = .ok f) : f = fs := by
  unfold renderStep at h
  split at h
  · injection h with h
    exact h.symm
  · exact absurd h (by simp)

theorem render_error_eq {c : Converter} {e : ExtWorld} {fs f : FS}
    (h : renderStep c e fs = .error f) : f = fs := by
  unfold renderStep at h
  split at h
  · exact absurd h (by simp)
  · injection h with h
    exact h.symm

theorem zip_ok_facts {c : Converter} {fs f : FS} (hodt : c.tmp_odt ≠ [])
    (h : zip_odt c fs = .ok f) :
    f = fs ++ [(c.tmp_odt, false)] ∧ pathExists f c.tmp_odt = true := by
  unfold zip_odt zip_dir at h
  by_cases hd : isDirFS fs c.tmp_dir = true
  · simp [hodt, hd] at h
    refine ⟨h.symm, ?_⟩
    rw [← h]
    exact pathExists_append_right fs c.tmp_odt false []
  · simp [hodt, hd] at h

theorem zip_error_eq {c : Converter} {fs f : FS} (h : zip_odt c fs = .error f) : f = fs := by
  unfold zip_odt at h
  split at h
  · exact absurd h (by simp)
  · injection h with h
    exact h.symm

theorem to_pdf_ok_eq {c : Converter} {e : ExtWorld} {fs f : FS}
    (h : to_pdf c e fs = .ok f) : f = fs ++ [(c.output_path, false)] := by
  unfold to_pdf at h
  split at h
  · injection h with h
    exact h.symm
  · exact absurd h (by simp)

theorem to_pdf_error_eq {c : Converter} {e : ExtWorld} {fs f : FS}
    (h : to_pdf c e fs = .error f) : f = fs := by
  unfold to_pdf at h
  split at h
  · exact absurd h (by simp)
  · injection h with h
    exact h.symm

theorem pipeline3_ok_facts {c : Converter} {e : ExtWorld} {fs f3 : FS}
    (hodt : c.tmp_odt ≠ []) (h : pipeline3 c e fs = .ok f3) :
    FSub fs f3 ∧ pathExists f3 c.tmp_dir = true ∧ pathExists f3 c.tmp_odt = true := by
  unfold pipeline3 at h
  cases hu : unzip_odt c e fs with
  | error f1 =>
    rw [hu] at h
    simp [Except.bind] at h
  | ok f1 =>
    rw [hu] at h
    simp only [Except.bind] at h
    cases hr : renderStep c e f1 with
    | error f2 =>
      rw [hr] at h
      simp at h
    | ok f2 =>
      rw [hr] at h
      simp only [] at h
      have hre := render_ok_eq hr
      subst hre
      have hz := zip_ok_facts hodt h
      have hu2 := unzip_ok_facts hu
      refine ⟨?_, ?_, hz.2⟩
      · rw [hz.1]
        exact fsub_trans hu2.1 (fsub_append _ _)
      · rw [hz.1]
        exact pathExists_mono (fsub_append _ _) hu2.2

theorem pipeline3_error_facts {c : Converter} {e : ExtWorld} {fs fE : FS}
    (h : pipeline3 c e fs = .error fE) :
    FSub fs fE ∧ (pathExists fs c.source_file = true → pathExists fE c.tmp_dir = true) := by
  unfold pipeline3 at h
  cases hu : unzip_odt c e fs with
  | error f1 =>
    rw [hu] at h
    simp only [Except.bind] at h
    injection h with h
    subst h
    have hf := unzip_error_facts hu
    refine ⟨hf.1, ?_⟩
    intro hs
    exact absurd (pathExists_mono hf.1 hs) (by simp [hf.2])
  | ok f1 =>
    rw [hu] at h
    simp only [Except.bind] at h
    have hu2 := unzip_ok_facts hu
    cases hr : renderStep c e f1 with
    | error f2 =>
      rw [hr] at h
      simp only [] at h
      injection h with h
      subst h
      have hre := render_error_eq hr
      subst hre
      exact ⟨hu2.1, fun _ => hu2.2⟩
    | ok f2 =>
      rw [hr] at h
      simp only [] at h
      have hre := render_ok_eq hr
      subst hre
      have hze := zip_error_eq h
      subst hze
      exact ⟨hu2.1, fun _ => hu2.2⟩

/-! ### Claims C3 and C4 -/

/-- Claim C3: for every request, when the full pipeline `_convert`
completes successfully, the temporary working directory `tmp_dir` and the
intermediate archive `tmp_odt` no longer exist in the final filesystem
state (`remove_tmp` deletes the tree at `tmp_dir` and the file `tmp_odt`). -/
theorem convert_removes_tmp (c : Converter) (e : ExtWorld) (fs fs2 : FS)
    (h : convertRun c e fs = .ok fs2) :
    pathExists fs2 c.tmp_dir = false ∧ pathExists fs2 c.tmp_odt = false := by
  unfold convertRun at h
  cases hp : pipeline4 c e fs with
  | error f =>
    rw [hp] at h
    simp [Except.bind] at h
  | ok f4 =>
    rw [hp] at h
    simp only [Except.bind] at h
    unfold remove_tmp at h
    by_cases hd : isDirFS f4 c.tmp_dir = true
    · rw [if_pos hd] at h
      by_cases hf : isFileFS (f4.filter (fun en => !(underDir c.tmp_dir en.1))) c.tmp_odt = true
      · rw [if_pos hf] at h
        injection h with h
        subst h
        constructor
        · simp only [pathExists, List.any_eq_false]
          intro en hen
          have h1 := List.mem_filter.mp hen
          have h2 := (List.mem_filter.mp h1.1).2
          simp only [Bool.not_eq_true'] at h2
          unfold underDir at h2
          simp only [Bool.or_eq_false_iff] at h2
          simp [h2.1]
        · simp only [pathExists, List.any_eq_false]
          intro en hen
          have h2 := (List.mem_filter.mp hen).2
          simp only [Bool.not_eq_true'] at h2
          simp [h2]
      · rw [if_neg hf] at h
        simp at h
    · rw [if_neg hd] at h
      simp at h

/-- Claim C4: when any of the four steps extract, render, repack or convert
fails, `_convert` propagates exactly that failure and never reaches the
cleanup step: no entry of the initial filesystem has been removed, a
working directory created by a completed extraction is still on disk, and
when the first three steps had completed the failing state still holds the
intermediate archive `tmp_odt`. -/
theorem convert_failure_leaves_tmp (c : Converter) (e : ExtWorld) (fs fsE : FS)
    (hodt : c.tmp_odt ≠ [])
    (h : pipeline4 c e fs = .error fsE) :
    convertRun c e fs = .error fsE
    ∧ FSub fs fsE
    ∧ (pathExists fs c.source_file = true → pathExists fsE c.tmp_dir = true)
    ∧ ∀ fs3, pipeline3 c e fs = .ok fs3 → fsE = fs3 ∧ pathExists fs3 c.tmp_odt = true := by
  have hmain : FSub fs fsE
      ∧ (pathExists fs c.source_file = true → pathExists fsE c.tmp_dir = true)
      ∧ ∀ fs3, pipeline3 c e fs = .ok fs3 → fsE = fs3 ∧ pathExists fs3 c.tmp_odt = true := by
    unfold pipeline4 at h
    cases hp3 : pipeline3 c e fs with
    | error fE3 =>
      rw [hp3] at h
      simp only [Except.bind] at h
      injection h with h
      subst h
      have hp := pipeline3_error_facts hp3
      refine ⟨hp.1, hp.2, ?_⟩
      intro fs3 hcontra
      exact absurd hcontra (by simp)
    | ok f3 =>
      rw [hp3] at h
      simp only [Except.bind] at h
      have hfe := to_pdf_error_eq h
      subst hfe
      have hp := pipeline3_ok_facts hodt hp3
      refine ⟨hp.1, fun _ => hp.2.1, ?_⟩
      intro fs3 hq
      injection hq with hq
      subst hq
      exact ⟨rfl, hp.2.2⟩
  refine ⟨?_, hmain.1, hmain.2.1, hmain.2.2⟩
  unfold convertRun
  rw [h]
  rfl

/-- Concrete request for the pipeline witnesses: exactly the fields
`Converter.__init__` computes for source `/docs/report.odt`, output
`/out/report.pdf`, `data = ("id": "42")` and empty `settings`. -/
def convW : Converter := {
  source_file := "/docs/report.odt".toList
  output_path := "/out/report.pdf".toList
  data := [("id".toList, .vStr "42".toList)]
  tmp_dir_master := "/tmp/INKPY".toList
  tmp_dir := "/tmp/INKPY/42".toList
  tmp_odt := "/tmp/INKPY/report.odt".toList
  lang_code := "pl".toList
}

/-- `convW` is exactly what `Converter.__init__` builds on these inputs. -/
theorem convW_from_init :
    converterInit [("/docs/report.odt".toList, false)] [] "/docs/report.odt".toList
      "/out/report.pdf".toList [("id".toList, .vStr "42".toList)] none = .ok convW := rfl

/-- External world for a fully successful run. -/
def extOkW : ExtWorld := ⟨["content.xml".toList, "styles.xml".toList], true, true⟩

/-- External world whose conversion subprocess fails. -/
def extBadW : ExtWorld := ⟨["content.xml".toList, "styles.xml".toList], true, false⟩

/-- Initial filesystem for the pipeline witnesses. -/
def fsInitW : FS := [("/docs/report.odt".toList, false)]

/-- Concrete instance of the C3 statement: tracing the successful run shows
that the working directory and the intermediate archive are gone. -/
theorem convert_removes_tmp_witness :
    pathExists [("/docs/report.odt".toList, false), ("/out/report.pdf".toList, false)]
        convW.tmp_dir = false
    ∧ pathExists [("/docs/report.odt".toList, false), ("/out/report.pdf".toList, false)]
        convW.tmp_odt = false :=
  convert_removes_tmp convW extOkW fsInitW
    [("/docs/report.odt".toList, false), ("/out/report.pdf".toList, false)] (by rfl)

/-- Concrete instance of the C4 statement: with a failing conversion
subprocess, `_convert` propagates the failure and the state at failure
still holds the working directory, both rendered files and `tmp_odt`. -/
theorem convert_failure_leaves_tmp_witness :
    convertRun convW extBadW fsInitW = .error
      [("/docs/report.odt".toList, false), ("/tmp/INKPY/42".toList, true),
       ("/tmp/INKPY/42/content.xml".toList, false), ("/tmp/INKPY/42/styles.xml".toList, false),
       ("/tmp/INKPY/report.odt".toList, false)] :=
  (convert_failure_leaves_tmp convW extBadW fsInitW
    [("/docs/report.odt".toList, false), ("/tmp/INKPY/42".toList, true),
     ("/tmp/INKPY/42/content.xml".toList, false), ("/tmp/INKPY/42/styles.xml".toList, false),
     ("/tmp/INKPY/report.odt".toList, false)] (by decide) (by rfl)).1
